import Mathlib

/-!
Verification of the semantic personality analyzer core of this repository
(`src/semantic_personality_analyzer.py` and `src/game_data_extractor.py`).
Python floats are modelled by exact rationals; where the source can produce
an IEEE NaN, that outcome is modelled explicitly.  External collaborators
(the embedding provider, the vector store) are modelled as oracles supplied
as arguments, so that the control flow of the source around them is what is
being verified.
-/

namespace PokerPoke

/-! ## Definitions -/

/-! ### Cosine similarity (`_calculate_similarity`) -/

/-- Embedding of `np.dot(vec1, vec2)`: sum of pairwise products. -/
def dotp (v w : List ℚ) : ℚ := (List.zipWith (fun a b => a * b) v w).sum

/-- The square of `np.linalg.norm(v)`.  The source divides by
`norm1 * norm2 = √(normSq v) * √(normSq w) = √(normSq v * normSq w)`;
since the square root is irrational in general, the development carries the
squared norm and represents the quotient symbolically (see `SimValue`). -/
def normSq (v : List ℚ) : ℚ := dotp v v

/-- Outcome of the float division `dot_product / (norm1 * norm2)` in
`_calculate_similarity`: `val d n` stands for the real number
`d / Real.sqrt n` with `d` the dot product and `n = normSq v * normSq w > 0`;
`nan` is the IEEE outcome when `norm1 * norm2 = 0` (the numerator is then
necessarily `0` as well, and `0.0 / 0.0` is NaN — no exception is raised). -/
inductive SimValue where
  | nan : SimValue
  | val : ℚ → ℚ → SimValue
deriving DecidableEq

/-- Embedding of `_calculate_similarity`: `np.dot(v, w) / (np.linalg.norm(v) * np.linalg.norm(w))`,
with the zero-denominator case of the division made explicit (the source has no
guard: the division is performed unconditionally). -/
def calculate_similarity (v w : List ℚ) : SimValue :=
  if normSq v * normSq w = 0 then SimValue.nan
  else SimValue.val (dotp v w) (normSq v * normSq w)

/-- Whether the computed similarity is the number `0` (NaN is not `0`). -/
def SimValue.isZero : SimValue → Bool
  | SimValue.nan => false
  | SimValue.val d _ => d == 0

/-- Whether the computed similarity lies in the interval `[-1, 1]`: the value
`d / √n` (with `n > 0`) lies in `[-1, 1]` iff `d ^ 2 ≤ n` (see
`SimValue.inUnitRange_val_iff`); NaN lies in no interval. -/
def SimValue.inUnitRange : SimValue → Bool
  | SimValue.nan => false
  | SimValue.val d n => decide (d ^ 2 ≤ n)

/-- Whether the computed similarity is the number `1`: the value `d / √n`
(with `n > 0`) equals `1` iff `0 ≤ d` and `d ^ 2 = n` (see
`SimValue.isOne_val_iff`); NaN is not `1`. -/
def SimValue.isOne : SimValue → Bool
  | SimValue.nan => false
  | SimValue.val d n => decide (0 ≤ d ∧ d ^ 2 = n)

/-! ### Archetype ranking (`compare_to_archetypes`) -/

/-- The archetype catalogue keys, in the insertion order of the
`archetypes` dict of the source (which is also the iteration order of
`archetype_similarities`). -/
def archetype_names : List String :=
  ["tight_aggressive", "loose_passive", "maniac", "rock", "tricky", "calling_station"]

/-- One step of a stable descending insertion: the new pair `p` is placed
after every already-placed pair whose similarity is at least `p.2`. -/
def insertDescBy (p : String × ℚ) : List (String × ℚ) → List (String × ℚ)
  | [] => [p]
  | q :: qs => if p.2 ≤ q.2 then q :: insertDescBy p qs else p :: q :: qs

/-- Model of `sorted(archetype_similarities.items(), key=lambda x: x[1],
reverse=True)`.  The Python `sorted` is stable (pairs with equal keys keep
their original relative order, here the dict insertion order), and every
stable sort by the same key produces the same list as this insertion sort. -/
def sortDescStable (l : List (String × ℚ)) : List (String × ℚ) :=
  l.foldl (fun acc p => insertDescBy p acc) []

/-- The ranked output dict of `compare_to_archetypes`. -/
structure ArchetypeResult where
  archetype_similarities : List (String × ℚ)
  best_match : Option String
  best_match_score : ℚ
deriving DecidableEq

/-- The ranking part of `compare_to_archetypes`: build the
archetype-to-similarity mapping in catalogue order (`simOf` abstracts the
similarity `_calculate_similarity(player_embedding, archetype_embedding)`
computed per archetype through the external embedding provider), sort it
descending, and report the top entry (`sorted_archetypes[0]` if non-empty,
else `None` / `0`). -/
def compare_to_archetypes_rank (simOf : String → ℚ) : ArchetypeResult :=
  let sorted := sortDescStable (archetype_names.map (fun a => (a, simOf a)))
  { archetype_similarities := sorted
    best_match := (sorted.head?).map Prod.fst
    best_match_score := ((sorted.head?).map Prod.snd).getD 0 }

/-- Outcome of `compare_to_archetypes`: the early structured error dict
`{"error": ...}` or the ranked result (the source returns a dict in both
cases and raises nothing). -/
inductive CompareOutcome where
  | err : String → CompareOutcome
  | ok : ArchetypeResult → CompareOutcome
deriving DecidableEq

/-- Embedding of `compare_to_archetypes`: `all_player_texts` is the concatenation of the
action documents and chat documents of the participant; if it is empty the
function returns `{"error": "No data available for this player"}` before any
provider call, otherwise it ranks the archetypes. -/
def compare_to_archetypes (actionDocs chatDocs : List String)
    (simOf : String → ℚ) : CompareOutcome :=
  if (actionDocs ++ chatDocs).isEmpty then
    CompareOutcome.err "No data available for this player"
  else CompareOutcome.ok (compare_to_archetypes_rank simOf)

/-- The descending-by-similarity order on ranked pairs. -/
def simGE (p q : String × ℚ) : Prop := q.2 ≤ p.2

/-- A concrete similarity assignment realizing a tie between
`loose_passive` and `calling_station`. -/
def exArchetypeSim : String → ℚ := fun a =>
  if a = "loose_passive" then 5
  else if a = "calling_station" then 5
  else if a = "tricky" then 4
  else if a = "rock" then 3
  else if a = "maniac" then 2
  else 1

/-! ### Chunked aggregation (`_generate_chunked_embedding`) -/

/-- Embedding of `estimate_tokens`: `len(text) // 4` (4 characters per token, rounded
down). -/
def estimate_tokens (s : String) : Nat := s.length / 4

/-- Helper for the Python `text.split()`: walk the characters, accumulating
the current word reversed in `cur`; whitespace ends a word, and empty words
(runs of whitespace) are discarded. -/
def words_go (cur : List Char) : List Char → List String
  | [] => if cur.isEmpty then [] else [String.mk cur.reverse]
  | c :: cs =>
    if c.isWhitespace then
      if cur.isEmpty then words_go [] cs
      else String.mk cur.reverse :: words_go [] cs
    else words_go (c :: cur) cs

/-- The Python `text.split()` with no separator argument: maximal runs of
non-whitespace characters. -/
def py_split_ws (s : String) : List String := words_go [] s.data

/-- Sum of the plain per-text estimates of the pieces of a chunk (the running
`current_tokens` of the text-packing loop). -/
def sumTok (c : List String) : Nat := (c.map estimate_tokens).sum

/-- Sum of the space-padded per-word estimates (the running `temp_tokens`
of the word-packing loop, which counts `estimate_tokens(word + " ")`). -/
def sumTokPad (c : List String) : Nat :=
  (c.map (fun w => estimate_tokens (w ++ " "))).sum

/-- One step of the word-packing loop of `_generate_chunked_embedding`.
State: (emitted chunks as piece lists, current `temp_chunk`, current
`temp_tokens`).  On overflow the current `temp_chunk` is emitted even when
it is empty (the source appends `" ".join(temp_chunk)` unconditionally). -/
def word_step (maxTok : Nat) (st : List (List String) × List String × Nat)
    (w : String) : List (List String) × List String × Nat :=
  let wt := estimate_tokens (w ++ " ")
  if maxTok < st.2.2 + wt then (st.1 ++ [st.2.1], [w], wt)
  else (st.1, st.2.1 ++ [w], st.2.2 + wt)

/-- The word-splitting path for a single text whose own estimate exceeds the
budget: greedy packing of its words, emitting the trailing `temp_chunk` if
non-empty. -/
def split_words (maxTok : Nat) (ws : List String) : List (List String) :=
  let st := ws.foldl (word_step maxTok) ([], [], 0)
  if st.2.1.isEmpty then st.1 else st.1 ++ [st.2.1]

/-- One step of the text-packing loop of `_generate_chunked_embedding`.
State: (emitted chunks as piece lists, current `current_chunk`, current
`current_tokens`).  A text whose own estimate exceeds the budget is
word-split and its sub-chunks are emitted immediately, leaving
`current_chunk` untouched (as in the source). -/
def text_step (maxTok : Nat) (st : List (List String) × List String × Nat)
    (text : String) : List (List String) × List String × Nat :=
  let tt := estimate_tokens text
  if maxTok < tt then
    (st.1 ++ split_words maxTok (py_split_ws text), st.2.1, st.2.2)
  else if maxTok < st.2.2 + tt then (st.1 ++ [st.2.1], [text], tt)
  else (st.1, st.2.1 ++ [text], st.2.2 + tt)

/-- The chunks built by `_generate_chunked_embedding`, as lists of their
pieces (whole texts, or words of a split long text); the trailing
`current_chunk` is emitted if non-empty. -/
def make_chunk_pieces (texts : List String) (maxTok : Nat) :
    List (List String) :=
  let st := texts.foldl (text_step maxTok) ([], [], 0)
  if st.2.1.isEmpty then st.1 else st.1 ++ [st.2.1]

/-- The emitted chunk strings: each piece list joined by `" ".join(...)`. -/
def make_chunks (texts : List String) (maxTok : Nat) : List String :=
  (make_chunk_pieces texts maxTok).map (fun c => String.intercalate " " c)

/-- Element-wise arithmetic mean `np.mean(chunk_embeddings, axis=0)` over
vectors of equal dimension (the dimension is read off the first vector;
`np.mean` requires a homogeneous array, which holds here because every
chunk embedding comes from the same model). -/
def vecMean (vs : List (List ℚ)) : List ℚ :=
  match vs with
  | [] => []
  | v0 :: _ =>
    (List.range v0.length).map
      (fun i => ((vs.map (fun v => v.getD i 0)).sum) / (vs.length : ℚ))

/-- Embedding of `_generate_chunked_embedding`: raise `ValueError` on empty input
(`Except.error` carries the message); build the chunks; embed each chunk
through the provider (`embed`; `none` models a per-chunk exception caught
and skipped by the `try/except` in the loop); raise if no chunk succeeded;
otherwise return the element-wise mean of the successful embeddings. -/
def generate_chunked_embedding (embed : String → Option (List ℚ))
    (texts : List String) (maxTok : Nat) : Except String (List ℚ) :=
  if texts.isEmpty then Except.error "No texts provided for embedding"
  else
    let embs := (make_chunks texts maxTok).filterMap embed
    if embs.isEmpty then
      Except.error "Failed to generate any embeddings from the text chunks"
    else Except.ok (vecMean embs)

/-! ### Vector index upsert (`index_game_data`) -/

/-- One indexed document: the embedded source text and its embedding (the
metadata mapping plays no role in id-uniqueness and is omitted). -/
structure IndexedDoc where
  text : String
  embedding : List ℚ
deriving DecidableEq

/-- The `collection.add(ids=[...], embeddings=[...], documents=[...])` call.
The comment in `index_game_data` documents the external ChromaDB behavior
the source relies on: "ChromaDB will overwrite entries with the same IDs" —
an id-keyed upsert, modelled as dropping any entry with the same id and
appending the new one. -/
def collection_add (c : List (String × IndexedDoc)) (docId : String)
    (d : IndexedDoc) : List (String × IndexedDoc) :=
  (c.filter (fun p => p.1 != docId)) ++ [(docId, d)]

/-- Indexing one document (the per-action body of `index_game_data`): skip
when the text is empty (`if action_text:`), otherwise embed the text and
`add` it under the given id. -/
def index_document (embed : String → List ℚ)
    (c : List (String × IndexedDoc)) (docId text : String) :
    List (String × IndexedDoc) :=
  if text = "" then c
  else collection_add c docId ⟨text, embed text⟩

/-! ### Provider calls and failure propagation
(`generate_embedding`, `analyze_player_personality`) -/

/-- The trait names of the `trait_queries` dict of the source, in order;
each per-trait description text is embedded once for the actions query and once for
the chat query, so each trait costs two provider calls. -/
def trait_queries : List String :=
  ["aggression", "bluff_tendency", "risk_tolerance", "adaptability",
    "tilt_prone", "patience"]

/-- Embedding of `generate_embedding`: a single `openai.embeddings.create` request and
nothing else — no retry, no backoff, no exception handling.  `provider`
maps the index of a request to its outcome; the call counter is threaded to
count the attempts actually made. -/
def generate_embedding (provider : Nat → Except String (List ℚ))
    (calls : Nat) : Except String (List ℚ) × Nat :=
  (provider calls, calls + 1)

/-- The trait-evidence loop of `analyze_player_personality`: for each trait,
`query_player_actions_by_trait` embeds the trait description (one provider
call) and `query_player_chat_by_trait` embeds it again (a second call); the
vector-store lookups themselves are local.  There is no `try/except` on this
path, so a provider failure propagates immediately: no later call is made
and the whole analysis aborts with that error. -/
def analyze_traits (provider : Nat → Except String (List ℚ)) :
    List String → Nat → Except String (List (String × List ℚ × List ℚ)) × Nat
  | [], calls => (Except.ok [], calls)
  | t :: rest, calls =>
    match generate_embedding provider calls with
    | (Except.error e, c2) => (Except.error e, c2)
    | (Except.ok ea, c2) =>
      match generate_embedding provider c2 with
      | (Except.error e, c3) => (Except.error e, c3)
      | (Except.ok ec, c3) =>
        match analyze_traits provider rest c3 with
        | (Except.error e, c4) => (Except.error e, c4)
        | (Except.ok res, c4) => (Except.ok ((t, ea, ec) :: res), c4)

/-- A provider whose first call succeeds and whose second call fails. -/
def exProvider : Nat → Except String (List ℚ) := fun i =>
  if i = 0 then Except.ok [1] else Except.error "boom"

/-! ### Participant statistics (`get_player_statistics`) -/

/-- The Python dict-counting idiom
`if k not in counts: counts[k] = 0` followed by `counts[k] += 1`,
on an insertion-ordered association list. -/
def bump (counts : List (String × Nat)) (k : String) : List (String × Nat) :=
  if counts.any (fun p => p.1 == k) then
    counts.map (fun p => if p.1 == k then (p.1, p.2 + 1) else p)
  else counts ++ [(k, 1)]

/-- Occurrence counts of each key, keys in first-occurrence order. -/
def count_types (keys : List String) : List (String × Nat) :=
  keys.foldl bump []

/-- The snapshot returned by `get_player_statistics`. -/
structure PlayerStats where
  total_actions : Nat
  action_counts : List (String × Nat)
  action_percentages : List (String × ℚ)
  total_messages : Nat
  sentiment_counts : List (String × Nat)
  sentiment_percentages : List (String × ℚ)

/-- Embedding of `get_player_statistics`, applied to the action-type strings of the
action metadata of the participant and the sentiment labels of their chat
metadata (the fields the two `collection.get` calls deliver).  Each
percentage is `(count / total) * 100 if total > 0 else 0`. -/
def get_player_statistics (actionTypes sentiments : List String) :
    PlayerStats :=
  let ta := actionTypes.length
  let ac := count_types actionTypes
  let ap := ac.map (fun p =>
    (p.1, if 0 < ta then (p.2 : ℚ) / (ta : ℚ) * 100 else 0))
  let tm := sentiments.length
  let sc := count_types sentiments
  let sp := sc.map (fun p =>
    (p.1, if 0 < tm then (p.2 : ℚ) / (tm : ℚ) * 100 else 0))
  ⟨ta, ac, ap, tm, sc, sp⟩

/-! ### Sentiment labeling (`_analyze_sentiment` in `game_data_extractor.py`) -/

/-- Character-wise prefix test used by the substring scan. -/
def matchAt : List Char → List Char → Bool
  | [], _ => true
  | _ :: _, [] => false
  | a :: as, b :: bs => a == b && matchAt as bs

/-- Does `pat` occur in the character list at any position? -/
def containsAt (pat : List Char) : List Char → Bool
  | [] => pat.isEmpty
  | c :: cs => matchAt pat (c :: cs) || containsAt pat cs

/-- The Python substring containment `pat in s`. -/
def strContainsSub (s pat : String) : Bool := containsAt pat.data s.data

/-- The Python `message.lower()`, as a character-wise map (the ASCII range,
which is all that the fixed keyword lists require). -/
def strToLower (s : String) : String := String.mk (s.data.map Char.toLower)

def confident_keywords : List String :=
  ["confident", "strong", "value", "edge", "calculated", "odds", "premium"]

def aggressive_keywords : List String :=
  ["raise", "bet", "pressure", "aggressive", "action", "attack"]

def cautious_keywords : List String :=
  ["careful", "fold", "wait", "patient", "risk"]

def friendly_keywords : List String :=
  ["fun", "nice", "good", "luck", "enjoy", "interesting"]

/-- The count `sum(1 for word in keywords if word in message)`: the number of
keywords of the list occurring in the message. -/
def kwCount (message : String) (kws : List String) : Nat :=
  (kws.filter (fun w => strContainsSub message w)).length

/-- The Python `max(counts, key=counts.get)` on a non-empty association list:
the first key attaining the maximal value (a later entry replaces the
current best only when strictly greater). -/
def firstMaxKey (p0 : String × Nat) (rest : List (String × Nat)) :
    String × Nat :=
  rest.foldl (fun best p => if best.2 < p.2 then p else best) p0

/-- Embedding of `_analyze_sentiment`: lowercase the message, count the keywords of
each category found as substrings, take the first maximal category in the fixed
dict order `confident, aggressive, cautious, friendly`, and return
`"neutral"` when that maximal count is zero. -/
def analyze_sentiment (message : String) : String :=
  let m := strToLower message
  let best := firstMaxKey ("confident", kwCount m confident_keywords)
    [("aggressive", kwCount m aggressive_keywords),
      ("cautious", kwCount m cautious_keywords),
      ("friendly", kwCount m friendly_keywords)]
  if best.2 = 0 then "neutral" else best.1

/-! ## Theorems -/

/-! ### Cosine similarity (`_calculate_similarity`) -/

theorem dotp_nil (w : List ℚ) : dotp [] w = 0 := rfl

theorem dotp_cons (x y : ℚ) (xs ys : List ℚ) :
    dotp (x :: xs) (y :: ys) = x * y + dotp xs ys := rfl

theorem normSq_cons (x : ℚ) (xs : List ℚ) :
    normSq (x :: xs) = x * x + normSq xs := rfl

theorem normSq_nonneg (v : List ℚ) : 0 ≤ normSq v := by
  induction v with
  | nil => simp [normSq, dotp]
  | cons x xs ih =>
    rw [normSq_cons]
    nlinarith [mul_self_nonneg x]

/-- Cauchy-Schwarz for the list dot product. -/
theorem dotp_sq_le (v w : List ℚ) : dotp v w ^ 2 ≤ normSq v * normSq w := by
  induction v generalizing w with
  | nil =>
    rw [dotp_nil]
    have h2 : normSq ([] : List ℚ) = 0 := rfl
    rw [h2, zero_mul]
    simp
  | cons x xs ih =>
    cases w with
    | nil =>
      have h1 : dotp (x :: xs) [] = 0 := rfl
      have h2 : normSq ([] : List ℚ) = 0 := rfl
      rw [h1, h2, mul_zero]
      simp
    | cons y ys =>
      have ha := normSq_nonneg xs
      have hb := normSq_nonneg ys
      have ihd := ih ys
      rw [dotp_cons, normSq_cons, normSq_cons]
      rcases eq_or_lt_of_le hb with hb0 | hbpos
      · have hd2 : dotp xs ys ^ 2 ≤ 0 := by
          have : normSq xs * normSq ys = 0 := by rw [← hb0, mul_zero]
          linarith [ihd, this.le, this.ge]
        have hd : dotp xs ys = 0 := by
          have := le_antisymm hd2 (sq_nonneg _)
          exact pow_eq_zero_iff (two_ne_zero).symm.symm |>.mp this
        rw [hd, ← hb0]
        nlinarith [mul_nonneg ha (mul_self_nonneg y), sq_nonneg (x * y)]
      · nlinarith [sq_nonneg (x * normSq ys - y * dotp xs ys),
          mul_nonneg (sq_nonneg y) (sub_nonneg.mpr ihd),
          mul_nonneg hbpos.le (sub_nonneg.mpr ihd)]

/-- Bridge for the `SimValue.inUnitRange` encoding: for a positive squared
denominator `n`, the encoded test `d ^ 2 ≤ n` says exactly that the real
value `d / √n` lies in `[-1, 1]`. -/
theorem SimValue.inUnitRange_val_iff (d n : ℚ) (hn : 0 < n) :
    (SimValue.val d n).inUnitRange = true ↔
      (-1 ≤ (d : ℝ) / Real.sqrt n ∧ (d : ℝ) / Real.sqrt n ≤ 1) := by
  have hnR : (0 : ℝ) < (n : ℝ) := by exact_mod_cast hn
  have hs : (0 : ℝ) < Real.sqrt n := Real.sqrt_pos.mpr hnR
  have h1 : (SimValue.val d n).inUnitRange = true ↔ ((d : ℝ) ^ 2 ≤ (n : ℝ)) := by
    rw [SimValue.inUnitRange, decide_eq_true_eq]
    constructor
    · intro h; exact_mod_cast h
    · intro h; exact_mod_cast h
  rw [h1, Real.sq_le hnR.le]
  constructor
  · rintro ⟨hlo, hhi⟩
    constructor
    · rw [le_div_iff₀ hs, neg_one_mul]; exact hlo
    · rw [div_le_one hs]; exact hhi
  · rintro ⟨hlo, hhi⟩
    constructor
    · rw [le_div_iff₀ hs, neg_one_mul] at hlo; exact hlo
    · rw [div_le_one hs] at hhi; exact hhi

/-- Bridge for the `SimValue.isOne` encoding: for a positive squared
denominator `n`, the encoded test `0 ≤ d ∧ d ^ 2 = n` says exactly that the
real value `d / √n` equals `1`. -/
theorem SimValue.isOne_val_iff (d n : ℚ) (hn : 0 < n) :
    (SimValue.val d n).isOne = true ↔ (d : ℝ) / Real.sqrt n = 1 := by
  have hnR : (0 : ℝ) < (n : ℝ) := by exact_mod_cast hn
  have hs : (0 : ℝ) < Real.sqrt n := Real.sqrt_pos.mpr hnR
  rw [SimValue.isOne, decide_eq_true_eq]
  constructor
  · rintro ⟨hd, hsq⟩
    have hdR : (0 : ℝ) ≤ (d : ℝ) := by exact_mod_cast hd
    have hsqR : ((d : ℝ)) ^ 2 = (n : ℝ) := by exact_mod_cast hsq
    have hd0 : (d : ℝ) ≠ 0 := by
      intro h0
      rw [h0] at hsqR
      nlinarith [hnR]
    rw [← hsqR, Real.sqrt_sq hdR]
    exact div_self hd0
  · intro h
    have hd : (d : ℝ) = Real.sqrt n := (div_eq_one_iff_eq hs.ne').mp h
    have hd0 : (0 : ℝ) ≤ (d : ℝ) := hd ▸ Real.sqrt_nonneg _
    have hsq : ((d : ℝ)) ^ 2 = (n : ℝ) := by
      rw [hd, Real.sq_sqrt hnR.le]
    constructor
    · exact_mod_cast hd0
    · exact_mod_cast hsq

/-- C3 counterexample: on the all-zero embedding pair `([0], [0])` both norms
are zero and `_calculate_similarity` does not return the number `0`: the
unguarded division `0.0 / 0.0` yields NaN. -/
theorem calculate_similarity_zero_norm_cex :
    normSq [(0 : ℚ)] = 0 ∧
      calculate_similarity [(0 : ℚ)] [(0 : ℚ)] = SimValue.nan ∧
      (calculate_similarity [(0 : ℚ)] [(0 : ℚ)]).isZero = false := by
  have h0 : normSq [(0 : ℚ)] = 0 := by simp [normSq, dotp]
  have h1 : calculate_similarity [(0 : ℚ)] [(0 : ℚ)] = SimValue.nan := by
    rw [calculate_similarity, if_pos (by rw [h0, zero_mul])]
  exact ⟨h0, h1, by rw [h1]; rfl⟩

/-- C3 (amended): whenever either argument has zero norm,
`_calculate_similarity` performs the division with a zero denominator and the
result is IEEE NaN (not the number `0`, but also not an exception). -/
theorem calculate_similarity_zero_norm_nan (v w : List ℚ)
    (h : normSq v = 0 ∨ normSq w = 0) :
    calculate_similarity v w = SimValue.nan := by
  unfold calculate_similarity
  rcases h with h | h
  · rw [if_pos (by rw [h, zero_mul])]
  · rw [if_pos (by rw [h, mul_zero])]

/-- Witness for `calculate_similarity_zero_norm_nan` at `v = [0]`, `w = [1]`. -/
theorem calculate_similarity_zero_norm_nan_witness :
    (normSq [(0 : ℚ)] = 0 ∨ normSq [(1 : ℚ)] = 0) ∧
      calculate_similarity [(0 : ℚ)] [(1 : ℚ)] = SimValue.nan :=
  ⟨Or.inl (by simp [normSq, dotp]),
    calculate_similarity_zero_norm_nan [(0 : ℚ)] [(1 : ℚ)]
      (Or.inl (by simp [normSq, dotp]))⟩

/-- C4 counterexample: on the all-zero pair `([0, 0], [0, 0])` the computed
similarity is NaN, which does not lie in `[-1, 1]`. -/
theorem calculate_similarity_bounds_cex :
    (calculate_similarity [(0 : ℚ), 0] [(0 : ℚ), 0]).inUnitRange = false := by
  have h0 : normSq [(0 : ℚ), 0] = 0 := by simp [normSq, dotp]
  rw [calculate_similarity, if_pos (by rw [h0, zero_mul])]
  rfl

/-- C4 (amended): whenever both vectors have nonzero norm, the computed
cosine similarity lies in `[-1, 1]` (encoded by `SimValue.inUnitRange`, see
`SimValue.inUnitRange_val_iff`), and a vector compared with itself yields
exactly `1` (encoded by `SimValue.isOne`, see `SimValue.isOne_val_iff`);
on a pair containing an all-zero vector the computed value is NaN instead. -/
theorem calculate_similarity_bounds (v w : List ℚ)
    (hv : normSq v ≠ 0) (hw : normSq w ≠ 0) :
    (calculate_similarity v w).inUnitRange = true ∧
      (calculate_similarity v v).isOne = true := by
  have hprod : normSq v * normSq w ≠ 0 := mul_ne_zero hv hw
  have hprod2 : normSq v * normSq v ≠ 0 := mul_ne_zero hv hv
  constructor
  · rw [calculate_similarity, if_neg hprod, SimValue.inUnitRange, decide_eq_true_eq]
    exact dotp_sq_le v w
  · rw [calculate_similarity, if_neg hprod2, SimValue.isOne, decide_eq_true_eq]
    refine ⟨normSq_nonneg v, ?_⟩
    rw [show dotp v v = normSq v from rfl, sq]

/-- Witness for `calculate_similarity_bounds` at `v = [1, 2]`, `w = [3]`. -/
theorem calculate_similarity_bounds_witness :
    normSq [(1 : ℚ), 2] ≠ 0 ∧ normSq [(3 : ℚ)] ≠ 0 ∧
      ((calculate_similarity [(1 : ℚ), 2] [(3 : ℚ)]).inUnitRange = true ∧
        (calculate_similarity [(1 : ℚ), 2] [(1 : ℚ), 2]).isOne = true) :=
  ⟨by norm_num [normSq, dotp], by norm_num [normSq, dotp],
    calculate_similarity_bounds [(1 : ℚ), 2] [(3 : ℚ)]
      (by norm_num [normSq, dotp]) (by norm_num [normSq, dotp])⟩

/-! ### Archetype ranking (`compare_to_archetypes`) -/

theorem mem_insertDescBy (p x : String × ℚ) (l : List (String × ℚ)) :
    x ∈ insertDescBy p l ↔ x = p ∨ x ∈ l := by
  induction l with
  | nil => simp [insertDescBy]
  | cons q qs ih =>
    rw [insertDescBy]
    by_cases h : p.2 ≤ q.2
    · rw [if_pos h]
      simp only [List.mem_cons, ih]
      tauto
    · rw [if_neg h]
      simp only [List.mem_cons]

theorem sorted_insertDescBy (p : String × ℚ) (l : List (String × ℚ))
    (hl : List.Sorted simGE l) : List.Sorted simGE (insertDescBy p l) := by
  induction l with
  | nil => simp [insertDescBy, List.Sorted]
  | cons q qs ih =>
    rw [List.sorted_cons] at hl
    rw [insertDescBy]
    by_cases h : p.2 ≤ q.2
    · rw [if_pos h, List.sorted_cons]
      refine ⟨?_, ih hl.2⟩
      intro b hb
      rcases (mem_insertDescBy p b qs).mp hb with hb | hb
      · rw [hb]; exact h
      · exact hl.1 b hb
    · rw [if_neg h, List.sorted_cons]
      push_neg at h
      refine ⟨?_, List.sorted_cons.mpr hl⟩
      intro b hb
      rcases List.mem_cons.mp hb with hb | hb
      · rw [hb]; exact h.le
      · exact (hl.1 b hb).trans h.le

theorem perm_insertDescBy (p : String × ℚ) (l : List (String × ℚ)) :
    List.Perm (insertDescBy p l) (p :: l) := by
  induction l with
  | nil => rfl
  | cons q qs ih =>
    rw [insertDescBy]
    by_cases h : p.2 ≤ q.2
    · rw [if_pos h]
      exact (List.Perm.cons q ih).trans (List.Perm.swap p q qs)
    · rw [if_neg h]

theorem sortDescStable_go_sorted (l acc : List (String × ℚ))
    (hacc : List.Sorted simGE acc) :
    List.Sorted simGE (l.foldl (fun acc p => insertDescBy p acc) acc) := by
  induction l generalizing acc with
  | nil => exact hacc
  | cons p rest ih =>
    rw [List.foldl_cons]
    exact ih _ (sorted_insertDescBy p acc hacc)

/-- The sort emits a list that is descending in the similarity component. -/
theorem sortDescStable_sorted (l : List (String × ℚ)) :
    List.Sorted simGE (sortDescStable l) :=
  sortDescStable_go_sorted l [] (by simp [List.Sorted])

theorem sortDescStable_go_perm (l acc : List (String × ℚ)) :
    List.Perm (l.foldl (fun acc p => insertDescBy p acc) acc) (acc ++ l) := by
  induction l generalizing acc with
  | nil => simp
  | cons p rest ih =>
    rw [List.foldl_cons]
    have h1 : List.Perm (insertDescBy p acc ++ rest) ((p :: acc) ++ rest) :=
      List.Perm.append_right rest (perm_insertDescBy p acc)
    have h2 : List.Perm ((p :: acc) ++ rest) (acc ++ p :: rest) :=
      List.perm_middle.symm
    exact (ih (insertDescBy p acc)).trans (h1.trans h2)

/-- The sort permutes its input. -/
theorem sortDescStable_perm (l : List (String × ℚ)) :
    List.Perm (sortDescStable l) l :=
  sortDescStable_go_perm l []

theorem filter_insertDescBy (c : ℚ) (p : String × ℚ) (l : List (String × ℚ))
    (hl : List.Sorted simGE l) :
    (insertDescBy p l).filter (fun q => decide (q.2 = c)) =
      if p.2 = c then l.filter (fun q => decide (q.2 = c)) ++ [p]
      else l.filter (fun q => decide (q.2 = c)) := by
  induction l with
  | nil =>
    rw [insertDescBy]
    by_cases hp : p.2 = c
    · rw [if_pos hp]; simp [List.filter_cons, hp]
    · rw [if_neg hp]; simp [List.filter_cons, hp]
  | cons q qs ih =>
    rw [List.sorted_cons] at hl
    rw [insertDescBy]
    by_cases h : p.2 ≤ q.2
    · rw [if_pos h]
      have ih2 := ih hl.2
      by_cases hp : p.2 = c
      · rw [if_pos hp] at ih2 ⊢
        rw [List.filter_cons, List.filter_cons, ih2]
        by_cases hq : q.2 = c
        · simp [hq]
        · simp [hq]
      · rw [if_neg hp] at ih2 ⊢
        rw [List.filter_cons, List.filter_cons, ih2]
    · rw [if_neg h]
      push_neg at h
      by_cases hp : p.2 = c
      · rw [if_pos hp]
        have hnil : (q :: qs).filter (fun r => decide (r.2 = c)) = [] := by
          rw [List.filter_eq_nil_iff]
          intro a ha
          simp only [decide_eq_true_eq]
          intro hac
          have hle : a.2 ≤ q.2 := by
            rcases List.mem_cons.mp ha with rfl | hmem
            · exact le_refl _
            · exact hl.1 a hmem
          rw [hac, ← hp] at hle
          exact absurd hle (not_le.mpr h)
        rw [hnil, List.filter_cons, List.nil_append]
        simp [hp, hnil]
      · rw [if_neg hp, List.filter_cons]
        simp [hp]

theorem filter_sortDescStable_go (c : ℚ) (l acc : List (String × ℚ))
    (hacc : List.Sorted simGE acc) :
    (l.foldl (fun acc p => insertDescBy p acc) acc).filter
        (fun q => decide (q.2 = c)) =
      acc.filter (fun q => decide (q.2 = c)) ++
        l.filter (fun q => decide (q.2 = c)) := by
  induction l generalizing acc with
  | nil => simp
  | cons p rest ih =>
    rw [List.foldl_cons, ih _ (sorted_insertDescBy p acc hacc),
      filter_insertDescBy c p acc hacc]
    by_cases hp : p.2 = c
    · rw [if_pos hp, List.filter_cons]
      simp [hp, List.append_assoc]
    · rw [if_neg hp, List.filter_cons]
      simp [hp]

/-- Stability of the sort: for every similarity value `c`, the pairs carrying
`c` appear in the sorted output in exactly their original (catalogue) order. -/
theorem filter_sortDescStable (c : ℚ) (l : List (String × ℚ)) :
    (sortDescStable l).filter (fun q => decide (q.2 = c)) =
      l.filter (fun q => decide (q.2 = c)) := by
  have h := filter_sortDescStable_go c l [] (by simp [List.Sorted])
  simpa using h

/-- C5 counterexample: with a tie between `loose_passive` and
`calling_station`, the stable sort of the code keeps `loose_passive` (earlier
in the catalogue dict order) first and reports it as `best_match`, whereas
tie-breaking by archetype name ascending would have to rank
`calling_station` (the alphabetically smaller name) first. -/
theorem compare_to_archetypes_tiebreak_cex :
    exArchetypeSim "loose_passive" = exArchetypeSim "calling_station" ∧
      ("calling_station" : String) < "loose_passive" ∧
      (compare_to_archetypes_rank exArchetypeSim).archetype_similarities =
        [("loose_passive", 5), ("calling_station", 5), ("tricky", 4),
          ("rock", 3), ("maniac", 2), ("tight_aggressive", 1)] ∧
      (compare_to_archetypes_rank exArchetypeSim).best_match =
        some "loose_passive" := by
  have hmap : archetype_names.map (fun a => (a, exArchetypeSim a)) =
      [("tight_aggressive", 1), ("loose_passive", 5), ("maniac", 2),
        ("rock", 3), ("tricky", 4), ("calling_station", 5)] := by
    simp [archetype_names, exArchetypeSim]
  have hsort : sortDescStable (archetype_names.map (fun a => (a, exArchetypeSim a))) =
      [("loose_passive", 5), ("calling_station", 5), ("tricky", 4),
        ("rock", 3), ("maniac", 2), ("tight_aggressive", 1)] := by
    rw [hmap]
    norm_num [sortDescStable, insertDescBy]
  have hsims : (compare_to_archetypes_rank exArchetypeSim).archetype_similarities =
      sortDescStable (archetype_names.map (fun a => (a, exArchetypeSim a))) := rfl
  have hbest : (compare_to_archetypes_rank exArchetypeSim).best_match =
      (sortDescStable (archetype_names.map
        (fun a => (a, exArchetypeSim a)))).head?.map Prod.fst := rfl
  refine ⟨by norm_num [exArchetypeSim], ?_, ?_, ?_⟩
  · simp only [String.lt_iff_toList_lt]
    decide
  · rw [hsims]
    exact hsort
  · rw [hbest, hsort]
    rfl

/-- C5 (amended): the classifier returns the archetype-to-similarity pairs
sorted descending by similarity, with ties between equal similarities kept
in the catalogue dict insertion order (`tight_aggressive, loose_passive,
maniac, rock, tricky, calling_station`) — the Python `sorted` is stable — not
by archetype name ascending; the first entry of that order is reported as
`best_match` with its score as `best_match_score`. -/
theorem compare_to_archetypes_ranking (simOf : String → ℚ) :
    List.Perm (compare_to_archetypes_rank simOf).archetype_similarities
        (archetype_names.map (fun a => (a, simOf a))) ∧
      List.Sorted simGE (compare_to_archetypes_rank simOf).archetype_similarities ∧
      (∀ c : ℚ,
        (compare_to_archetypes_rank simOf).archetype_similarities.filter
            (fun q => decide (q.2 = c)) =
          (archetype_names.map (fun a => (a, simOf a))).filter
            (fun q => decide (q.2 = c))) ∧
      (∃ p rest,
        (compare_to_archetypes_rank simOf).archetype_similarities = p :: rest ∧
          (compare_to_archetypes_rank simOf).best_match = some p.1 ∧
          (compare_to_archetypes_rank simOf).best_match_score = p.2 ∧
          ∀ q ∈ (compare_to_archetypes_rank simOf).archetype_similarities,
            q.2 ≤ p.2) := by
  have hperm := sortDescStable_perm (archetype_names.map (fun a => (a, simOf a)))
  have hsorted := sortDescStable_sorted (archetype_names.map (fun a => (a, simOf a)))
  refine ⟨hperm, hsorted, fun c => filter_sortDescStable c _, ?_⟩
  cases hL : sortDescStable (archetype_names.map (fun a => (a, simOf a))) with
  | nil =>
    exfalso
    rw [hL] at hperm
    have := hperm.symm.eq_nil
    simp [archetype_names] at this
  | cons p rest =>
    refine ⟨p, rest, ?_, ?_, ?_, ?_⟩
    · show sortDescStable _ = p :: rest
      exact hL
    · show (sortDescStable _).head?.map Prod.fst = some p.1
      rw [hL]; rfl
    · show (((sortDescStable _).head?).map Prod.snd).getD 0 = p.2
      rw [hL]; rfl
    · show ∀ q ∈ sortDescStable _, q.2 ≤ p.2
      rw [hL] at hsorted ⊢
      rw [List.sorted_cons] at hsorted
      intro q hq
      rcases List.mem_cons.mp hq with rfl | hmem
      · exact le_refl _
      · exact hsorted.1 q hmem

/-- C6 counterexample: the structured error the code returns for a
participant with zero indexed documents carries the message
`"No data available for this player"`, which is not the message
`"no data available for this participant"` stated by the spec. -/
theorem compare_to_archetypes_no_data_cex :
    compare_to_archetypes [] [] exArchetypeSim =
        CompareOutcome.err "No data available for this player" ∧
      ("No data available for this player" : String) ≠
        "no data available for this participant" := by
  constructor
  · rfl
  · simp

/-- C6 (amended): classifying a participant with zero indexed documents (no
action and no chat documents) returns the structured result
`{"error": "No data available for this player"}` — note the exact message —
before any provider call; no exception escapes. -/
theorem compare_to_archetypes_no_data (actionDocs chatDocs : List String)
    (simOf : String → ℚ) (h : actionDocs ++ chatDocs = []) :
    compare_to_archetypes actionDocs chatDocs simOf =
      CompareOutcome.err "No data available for this player" := by
  rw [compare_to_archetypes, if_pos (by rw [h]; rfl)]

/-- Witness for `compare_to_archetypes_no_data` on the empty index. -/
theorem compare_to_archetypes_no_data_witness :
    ([] : List String) ++ ([] : List String) = [] ∧
      compare_to_archetypes [] [] exArchetypeSim =
        CompareOutcome.err "No data available for this player" :=
  ⟨rfl, compare_to_archetypes_no_data [] [] exArchetypeSim rfl⟩

/-! ### Chunked aggregation (`_generate_chunked_embedding`) -/

theorem sumTok_append (a b : List String) :
    sumTok (a ++ b) = sumTok a + sumTok b := by
  simp [sumTok]

theorem sumTokPad_append (a b : List String) :
    sumTokPad (a ++ b) = sumTokPad a + sumTokPad b := by
  simp [sumTokPad]

/-- Invariant of the word-packing fold: every emitted sub-chunk either has
padded-estimate sum within the budget or is a single word, the running
counter equals the padded-estimate sum of `temp_chunk`, and `temp_chunk`
itself satisfies the same emission property. -/
theorem word_fold_invariant (maxTok : Nat) (ws : List String)
    (st : List (List String) × List String × Nat)
    (hchunks : ∀ c ∈ st.1, sumTokPad c ≤ maxTok ∨ c.length ≤ 1)
    (htok : st.2.2 = sumTokPad st.2.1)
    (hcur : sumTokPad st.2.1 ≤ maxTok ∨ st.2.1.length ≤ 1) :
    (∀ c ∈ (ws.foldl (word_step maxTok) st).1,
        sumTokPad c ≤ maxTok ∨ c.length ≤ 1) ∧
      (ws.foldl (word_step maxTok) st).2.2 =
        sumTokPad (ws.foldl (word_step maxTok) st).2.1 ∧
      (sumTokPad (ws.foldl (word_step maxTok) st).2.1 ≤ maxTok ∨
        (ws.foldl (word_step maxTok) st).2.1.length ≤ 1) := by
  induction ws generalizing st with
  | nil => exact ⟨hchunks, htok, hcur⟩
  | cons w rest ih =>
    rw [List.foldl_cons]
    rcases st with ⟨cs, cur, tok⟩
    by_cases h : maxTok < tok + estimate_tokens (w ++ " ")
    · have hstep : word_step maxTok (cs, cur, tok) w =
          (cs ++ [cur], [w], estimate_tokens (w ++ " ")) := by
        rw [word_step, if_pos h]
      rw [hstep]
      refine ih _ ?_ ?_ ?_
      · intro c hc
        rcases List.mem_append.mp hc with hc | hc
        · exact hchunks c hc
        · rw [List.mem_singleton.mp hc]
          exact hcur
      · simp [sumTokPad]
      · right
        simp
    · have hstep : word_step maxTok (cs, cur, tok) w =
          (cs, cur ++ [w], tok + estimate_tokens (w ++ " ")) := by
        rw [word_step, if_neg h]
      rw [hstep]
      refine ih _ hchunks ?_ ?_
      · rw [sumTokPad_append, ← htok]
        simp [sumTokPad]
      · left
        rw [sumTokPad_append, ← htok]
        have : sumTokPad [w] = estimate_tokens (w ++ " ") := by simp [sumTokPad]
        rw [this]
        exact not_lt.mp h

/-- Every sub-chunk emitted by word-splitting has padded-estimate sum within
the budget, or consists of a single word. -/
theorem split_words_budget (maxTok : Nat) (ws : List String) :
    ∀ c ∈ split_words maxTok ws, sumTokPad c ≤ maxTok ∨ c.length ≤ 1 := by
  have h := word_fold_invariant maxTok ws ([], [], 0)
    (by intro c hc; cases hc) (by simp [sumTokPad]) (by left; simp [sumTokPad])
  intro c hc
  rw [split_words] at hc
  by_cases hemp : (ws.foldl (word_step maxTok) ([], [], 0)).2.1.isEmpty
  · rw [if_pos hemp] at hc
    exact h.1 c hc
  · rw [if_neg hemp] at hc
    rcases List.mem_append.mp hc with hc | hc
    · exact h.1 c hc
    · rw [List.mem_singleton.mp hc]
      exact h.2.2

/-- Invariant of the text-packing fold: every emitted chunk satisfies the
piece-level budget disjunction, the running counter equals the estimate sum
of `current_chunk`, and that sum stays within the budget. -/
theorem text_fold_invariant (maxTok : Nat) (ts : List String)
    (st : List (List String) × List String × Nat)
    (hchunks : ∀ c ∈ st.1,
      sumTok c ≤ maxTok ∨ sumTokPad c ≤ maxTok ∨ c.length ≤ 1)
    (htok : st.2.2 = sumTok st.2.1)
    (hcur : sumTok st.2.1 ≤ maxTok) :
    (∀ c ∈ (ts.foldl (text_step maxTok) st).1,
        sumTok c ≤ maxTok ∨ sumTokPad c ≤ maxTok ∨ c.length ≤ 1) ∧
      (ts.foldl (text_step maxTok) st).2.2 =
        sumTok (ts.foldl (text_step maxTok) st).2.1 ∧
      sumTok (ts.foldl (text_step maxTok) st).2.1 ≤ maxTok := by
  induction ts generalizing st with
  | nil => exact ⟨hchunks, htok, hcur⟩
  | cons t rest ih =>
    rw [List.foldl_cons]
    rcases st with ⟨cs, cur, tok⟩
    by_cases h1 : maxTok < estimate_tokens t
    · have hstep : text_step maxTok (cs, cur, tok) t =
          (cs ++ split_words maxTok (py_split_ws t), cur, tok) := by
        rw [text_step, if_pos h1]
      rw [hstep]
      refine ih _ ?_ htok hcur
      intro c hc
      rcases List.mem_append.mp hc with hc | hc
      · exact hchunks c hc
      · rcases split_words_budget maxTok (py_split_ws t) c hc with h | h
        · exact Or.inr (Or.inl h)
        · exact Or.inr (Or.inr h)
    · by_cases h2 : maxTok < tok + estimate_tokens t
      · have hstep : text_step maxTok (cs, cur, tok) t =
            (cs ++ [cur], [t], estimate_tokens t) := by
          rw [text_step, if_neg h1, if_pos h2]
        rw [hstep]
        refine ih _ ?_ ?_ ?_
        · intro c hc
          rcases List.mem_append.mp hc with hc | hc
          · exact hchunks c hc
          · rw [List.mem_singleton.mp hc]
            exact Or.inl hcur
        · simp [sumTok]
        · have : sumTok [t] = estimate_tokens t := by simp [sumTok]
          rw [this]
          exact not_lt.mp h1
      · have hstep : text_step maxTok (cs, cur, tok) t =
            (cs, cur ++ [t], tok + estimate_tokens t) := by
          rw [text_step, if_neg h1, if_neg h2]
        rw [hstep]
        refine ih _ hchunks ?_ ?_
        · rw [sumTok_append, ← htok]
          simp [sumTok]
        · rw [sumTok_append, ← htok]
          have : sumTok [t] = estimate_tokens t := by simp [sumTok]
          rw [this]
          exact not_lt.mp h2

/-- C1 counterexample: two concrete violations of the chunk budget.
With maximum 1, the three texts `"abc"` (each estimating 0 tokens) are all
greedily packed into one chunk whose joined string `"abc abc abc"` estimates
2 tokens; and the single space-free text `"abcdefgh"` (estimate 2 > 1) is
word-split into an empty sub-chunk and the whole 2-token word. -/
theorem chunk_budget_cex :
    make_chunks ["abc", "abc", "abc"] 1 = ["abc abc abc"] ∧
      ¬ estimate_tokens "abc abc abc" ≤ 1 ∧
      make_chunks ["abcdefgh"] 1 = ["", "abcdefgh"] ∧
      ¬ estimate_tokens "abcdefgh" ≤ 1 := by
  refine ⟨rfl, by decide, rfl, by decide⟩

/-- C1 (amended): the greedy packing bounds the *sum of the per-piece
estimates* of every emitted chunk by the configured maximum — plain
estimates for whole texts, space-padded estimates for the words of a split
long text — except that a sub-chunk holding a single word may exceed the
budget (a word alone can estimate over the maximum and is never split).
The estimate of the joined chunk string itself can exceed the maximum,
because the join separators and the floor rounding are not accounted
(see `chunk_budget_cex`). -/
theorem chunk_budget_invariant (texts : List String) (maxTok : Nat) :
    ∀ c ∈ make_chunk_pieces texts maxTok,
      sumTok c ≤ maxTok ∨ sumTokPad c ≤ maxTok ∨ c.length ≤ 1 := by
  have h := text_fold_invariant maxTok texts ([], [], 0)
    (by intro c hc; cases hc) (by simp [sumTok]) (by simp [sumTok])
  intro c hc
  rw [make_chunk_pieces] at hc
  by_cases hemp : (texts.foldl (text_step maxTok) ([], [], 0)).2.1.isEmpty
  · rw [if_pos hemp] at hc
    exact h.1 c hc
  · rw [if_neg hemp] at hc
    rcases List.mem_append.mp hc with hc | hc
    · exact h.1 c hc
    · rw [List.mem_singleton.mp hc]
      exact Or.inl h.2.2

/-- Witness for `chunk_budget_invariant` on `["ab", "cd"]` with the default
budget 4000. -/
theorem chunk_budget_invariant_witness :
    ["ab", "cd"] ∈ make_chunk_pieces ["ab", "cd"] 4000 ∧
      (sumTok ["ab", "cd"] ≤ 4000 ∨ sumTokPad ["ab", "cd"] ≤ 4000 ∨
        (["ab", "cd"] : List String).length ≤ 1) :=
  ⟨by decide, chunk_budget_invariant ["ab", "cd"] 4000 ["ab", "cd"] (by decide)⟩

theorem range_map_getD (n : Nat) (f : Nat → ℚ) (i : Nat) (h : i < n) :
    ((List.range n).map f).getD i 0 = f i := by
  have hlen : i < ((List.range n).map f).length := by
    simpa using h
  rw [List.getD_eq_getElem ((List.range n).map f) 0 hlen]
  simp

/-- C9: with a non-empty text list, the aggregation returns the element-wise
arithmetic mean of the successfully embedded chunk vectors; its dimension
equals the fixed provider output dimension `d` regardless of the number of input
texts; with zero successful chunks it fails with the `ValueError` message. -/
theorem generate_chunked_embedding_mean (embed : String → Option (List ℚ))
    (texts : List String) (maxTok d : Nat)
    (htexts : texts ≠ [])
    (hdim : ∀ v ∈ (make_chunks texts maxTok).filterMap embed, v.length = d) :
    ((make_chunks texts maxTok).filterMap embed ≠ [] →
      generate_chunked_embedding embed texts maxTok =
          Except.ok (vecMean ((make_chunks texts maxTok).filterMap embed)) ∧
        (vecMean ((make_chunks texts maxTok).filterMap embed)).length = d ∧
        (∀ i, i < d →
          (vecMean ((make_chunks texts maxTok).filterMap embed)).getD i 0 =
            (((make_chunks texts maxTok).filterMap embed).map
                (fun v => v.getD i 0)).sum /
              ((((make_chunks texts maxTok).filterMap embed).length : ℚ)))) ∧
      ((make_chunks texts maxTok).filterMap embed = [] →
        generate_chunked_embedding embed texts maxTok =
          Except.error "Failed to generate any embeddings from the text chunks") := by
  have htexts2 : texts.isEmpty = false := by
    cases texts with
    | nil => exact absurd rfl htexts
    | cons a l => rfl
  constructor
  · intro hne
    have hne2 : ((make_chunks texts maxTok).filterMap embed).isEmpty = false := by
      cases hfm : (make_chunks texts maxTok).filterMap embed with
      | nil => exact absurd hfm hne
      | cons v vs => rfl
    have hres : generate_chunked_embedding embed texts maxTok =
        Except.ok (vecMean ((make_chunks texts maxTok).filterMap embed)) := by
      rw [generate_chunked_embedding]
      rw [if_neg (by rw [htexts2]; exact Bool.false_ne_true)]
      rw [if_neg (by rw [hne2]; exact Bool.false_ne_true)]
    refine ⟨hres, ?_, ?_⟩
    · cases hfm : (make_chunks texts maxTok).filterMap embed with
      | nil => exact absurd hfm hne
      | cons v0 vs =>
        have hd0 : v0.length = d := hdim v0 (by rw [hfm]; exact List.mem_cons_self v0 vs)
        rw [vecMean]
        simp [hd0]
    · intro i hi
      cases hfm : (make_chunks texts maxTok).filterMap embed with
      | nil => exact absurd hfm hne
      | cons v0 vs =>
        have hd0 : v0.length = d := hdim v0 (by rw [hfm]; exact List.mem_cons_self v0 vs)
        rw [vecMean]
        rw [range_map_getD v0.length _ i (hd0 ▸ hi)]
  · intro hz
    rw [generate_chunked_embedding]
    rw [if_neg (by rw [htexts2]; exact Bool.false_ne_true)]
    rw [if_pos (by rw [hz]; rfl)]

/-- Witness for `generate_chunked_embedding_mean` with one text and a
provider that always returns the 2-dimensional vector `[1, 2]`. -/
theorem generate_chunked_embedding_mean_witness :
    (["hello"] : List String) ≠ [] ∧
      (∀ v ∈ (make_chunks ["hello"] 4000).filterMap
          (fun _ => some [(1 : ℚ), 2]), v.length = 2) ∧
      (make_chunks ["hello"] 4000).filterMap
          (fun _ => some [(1 : ℚ), 2]) ≠ [] ∧
      generate_chunked_embedding (fun _ => some [(1 : ℚ), 2]) ["hello"] 4000 =
        Except.ok (vecMean ((make_chunks ["hello"] 4000).filterMap
          (fun _ => some [(1 : ℚ), 2]))) :=
  ⟨by decide, by decide, by decide,
    ((generate_chunked_embedding_mean (fun _ => some [(1 : ℚ), 2]) ["hello"]
      4000 2 (by decide) (by decide)).1 (by decide)).1⟩

/-! ### Vector index upsert (`index_game_data`) -/

theorem collection_add_filter (c : List (String × IndexedDoc))
    (docId : String) (d : IndexedDoc) :
    (collection_add c docId d).filter (fun p => p.1 == docId) =
      [(docId, d)] := by
  rw [collection_add, List.filter_append]
  have h1 : (c.filter (fun p => p.1 != docId)).filter
      (fun p => p.1 == docId) = [] := by
    rw [List.filter_filter, List.filter_eq_nil_iff]
    intro p hp
    simp only [Bool.and_eq_true, beq_iff_eq, bne_iff_ne, ne_eq]
    tauto
  rw [h1, List.nil_append]
  simp

/-- C2: indexing the same document id twice (with possibly different
non-empty source texts) leaves exactly one entry under that id in the
collection — the one carrying the latest text and its embedding. -/
theorem index_twice_upsert (embed : String → List ℚ)
    (c : List (String × IndexedDoc)) (docId t1 t2 : String)
    (_h1 : t1 ≠ "") (h2 : t2 ≠ "") :
    (index_document embed (index_document embed c docId t1) docId t2).filter
        (fun p => p.1 == docId) =
      [(docId, ⟨t2, embed t2⟩)] := by
  rw [index_document, if_neg h2, collection_add_filter]

/-- Witness for `index_twice_upsert`: re-indexing `"g1_action_0"` with a new
text replaces the old entry. -/
theorem index_twice_upsert_witness :
    ("raises" : String) ≠ "" ∧ ("folds" : String) ≠ "" ∧
      (index_document (fun s => [(s.length : ℚ)])
          (index_document (fun s => [(s.length : ℚ)]) [] "g1_action_0" "raises")
          "g1_action_0" "folds").filter (fun p => p.1 == "g1_action_0") =
        [("g1_action_0", ⟨"folds", [((("folds" : String)).length : ℚ)]⟩)] :=
  ⟨by simp, by simp,
    index_twice_upsert (fun s => [(s.length : ℚ)]) [] "g1_action_0"
      "raises" "folds" (by simp) (by simp)⟩

/-! ### Provider calls and failure propagation
(`generate_embedding`, `analyze_player_personality`) -/

/-- C7 counterexample: with a provider that always fails, the analysis
request aborts with the error of the provider after exactly one attempted call —
the failed call is not retried (no backoff), and no partial result with a
missing trait example is produced. -/
theorem analyze_traits_no_retry_cex :
    analyze_traits (fun _ => Except.error "rate limit") trait_queries 0 =
      (Except.error "rate limit", 1) := rfl

/-- C7 (amended): the source has no retry or backoff: every embedding call
is attempted exactly once.  When the analysis aborts with an error, the last
call made is the single failing one (all earlier calls succeeded, and the
failing call was not re-attempted); only the chunked aggregation degrades on
provider failure, by skipping failed chunks (see
`generate_chunked_embedding_mean`).  When the analysis succeeds, exactly
`2 * (number of traits)` calls were made. -/
theorem analyze_traits_no_retry (provider : Nat → Except String (List ℚ))
    (ts : List String) (calls : Nat) :
    (∀ e c, analyze_traits provider ts calls = (Except.error e, c) →
      calls < c ∧ provider (c - 1) = Except.error e ∧
        ∀ i, calls ≤ i → i < c - 1 → ∃ v, provider i = Except.ok v) ∧
      (∀ r c, analyze_traits provider ts calls = (Except.ok r, c) →
        c = calls + 2 * ts.length) := by
  induction ts generalizing calls with
  | nil =>
    constructor
    · intro e c h
      rw [analyze_traits] at h
      cases h
    · intro r c h
      rw [analyze_traits] at h
      injection h with h1 h2
      simp [h2]
  | cons t rest ih =>
    constructor
    · intro e c h
      simp only [analyze_traits, generate_embedding] at h
      cases hp0 : provider calls with
      | error e0 =>
        simp only [hp0, Prod.mk.injEq, Except.error.injEq] at h
        obtain ⟨he, hc⟩ := h
        subst he
        subst hc
        refine ⟨by omega, by simpa using hp0, ?_⟩
        intro i hi1 hi2
        omega
      | ok v0 =>
        simp only [hp0] at h
        cases hp1 : provider (calls + 1) with
        | error e1 =>
          simp only [hp1, Prod.mk.injEq, Except.error.injEq] at h
          obtain ⟨he, hc⟩ := h
          subst he
          subst hc
          refine ⟨by omega, by simpa using hp1, ?_⟩
          intro i hi1 hi2
          have hieq : i = calls := by omega
          exact ⟨v0, hieq ▸ hp0⟩
        | ok v1 =>
          simp only [hp1] at h
          cases hrec : analyze_traits provider rest (calls + 1 + 1) with
          | mk res c4 =>
            simp only [hrec] at h
            cases res with
            | error e2 =>
              simp only [Prod.mk.injEq, Except.error.injEq] at h
              obtain ⟨he, hc⟩ := h
              subst he
              subst hc
              have hih := (ih (calls + 1 + 1)).1 e2 c4 hrec
              refine ⟨by omega, hih.2.1, ?_⟩
              intro i hi1 hi2
              by_cases hcase : i = calls
              · exact ⟨v0, hcase ▸ hp0⟩
              · by_cases hcase2 : i = calls + 1
                · exact ⟨v1, hcase2 ▸ hp1⟩
                · exact hih.2.2 i (by omega) hi2
            | ok resl =>
              simp at h
    · intro r c h
      simp only [analyze_traits, generate_embedding] at h
      cases hp0 : provider calls with
      | error e0 =>
        simp only [hp0] at h
        simp at h
      | ok v0 =>
        simp only [hp0] at h
        cases hp1 : provider (calls + 1) with
        | error e1 =>
          simp only [hp1] at h
          simp at h
        | ok v1 =>
          simp only [hp1] at h
          cases hrec : analyze_traits provider rest (calls + 1 + 1) with
          | mk res c4 =>
            simp only [hrec] at h
            cases res with
            | error e2 => simp at h
            | ok resl =>
              simp only [Prod.mk.injEq] at h
              obtain ⟨h1, h2⟩ := h
              subst h2
              have hih := (ih (calls + 1 + 1)).2 resl c4 hrec
              simp only [List.length_cons]
              omega

/-- Witness for `analyze_traits_no_retry`: the provider fails on its second
call; the analysis aborts there having made exactly two call attempts, the
first successful, the failing one attempted once. -/
theorem analyze_traits_no_retry_witness :
    analyze_traits exProvider trait_queries 0 = (Except.error "boom", 2) ∧
      (0 < 2 ∧ exProvider (2 - 1) = Except.error "boom" ∧
        ∀ i, 0 ≤ i → i < 2 - 1 → ∃ v, exProvider i = Except.ok v) :=
  ⟨rfl, (analyze_traits_no_retry exProvider trait_queries 0).1 "boom" 2 rfl⟩

/-! ### Participant statistics (`get_player_statistics`) -/

theorem bump_invariant (processed : List String)
    (counts : List (String × Nat)) (k : String)
    (h1 : ∀ q ∈ counts, q.2 = processed.count q.1 ∧ q.1 ∈ processed)
    (h2 : ∀ a ∈ processed, ∃ n, (a, n) ∈ counts)
    (h3 : (counts.map Prod.fst).Nodup) :
    (∀ q ∈ bump counts k,
        q.2 = (processed ++ [k]).count q.1 ∧ q.1 ∈ processed ++ [k]) ∧
      (∀ a ∈ processed ++ [k], ∃ n, (a, n) ∈ bump counts k) ∧
      ((bump counts k).map Prod.fst).Nodup := by
  rw [bump]
  by_cases hany : counts.any (fun p => p.1 == k) = true
  · rw [if_pos hany]
    have hkeys : (counts.map (fun p =>
        if p.1 == k then (p.1, p.2 + 1) else p)).map Prod.fst =
        counts.map Prod.fst := by
      rw [List.map_map]
      apply List.map_congr_left
      intro p hp
      by_cases hpk : p.1 = k
      · simp [hpk]
      · simp [hpk]
    refine ⟨?_, ?_, ?_⟩
    · intro q hq
      rcases List.mem_map.mp hq with ⟨p, hp, hpq⟩
      by_cases hpk : (p.1 == k) = true
      · rw [if_pos hpk] at hpq
        have hk : p.1 = k := beq_iff_eq.mp hpk
        rcases h1 p hp with ⟨hcnt, hmem⟩
        constructor
        · rw [← hpq]
          simp only [List.count_append, hk, hcnt]
          simp [hk]
        · rw [← hpq]
          exact List.mem_append_left _ hmem
      · rw [if_neg hpk] at hpq
        rcases h1 p hp with ⟨hcnt, hmem⟩
        have hk : p.1 ≠ k := by
          intro hqe
          exact hpk (beq_iff_eq.mpr hqe)
        rw [← hpq]
        constructor
        · rw [List.count_append, hcnt]
          simp [hk]
        · exact List.mem_append_left _ hmem
    · intro a ha
      rcases List.mem_append.mp ha with ha | ha
      · rcases h2 a ha with ⟨n, hn⟩
        by_cases hak : (a == k) = true
        · exact ⟨n + 1, List.mem_map.mpr ⟨(a, n), hn, by simp [hak]⟩⟩
        · exact ⟨n, List.mem_map.mpr ⟨(a, n), hn, by simp [hak]⟩⟩
      · rw [List.mem_singleton.mp ha]
        rcases List.any_eq_true.mp hany with ⟨p, hp, hpk⟩
        have hk : p.1 = k := beq_iff_eq.mp hpk
        exact ⟨p.2 + 1, List.mem_map.mpr ⟨p, hp, by simp [hpk, hk]⟩⟩
    · rw [hkeys]
      exact h3
  · rw [if_neg hany]
    have hnotin : ∀ p ∈ counts, p.1 ≠ k := by
      intro p hp hpk
      exact hany (List.any_eq_true.mpr ⟨p, hp, beq_iff_eq.mpr hpk⟩)
    have hkproc : k ∉ processed := by
      intro hkp
      rcases h2 k hkp with ⟨n, hn⟩
      exact hnotin (k, n) hn rfl
    refine ⟨?_, ?_, ?_⟩
    · intro q hq
      rcases List.mem_append.mp hq with hq | hq
      · rcases h1 q hq with ⟨hcnt, hmem⟩
        have hk : q.1 ≠ k := hnotin q hq
        constructor
        · rw [List.count_append, hcnt]
          simp [hk]
        · exact List.mem_append_left _ hmem
      · rw [List.mem_singleton.mp hq]
        constructor
        · simp only [List.count_append]
          rw [List.count_eq_zero.mpr hkproc]
          simp
        · exact List.mem_append_right _ (List.mem_singleton_self k)
    · intro a ha
      rcases List.mem_append.mp ha with ha | ha
      · rcases h2 a ha with ⟨n, hn⟩
        exact ⟨n, List.mem_append_left _ hn⟩
      · rw [List.mem_singleton.mp ha]
        exact ⟨1, List.mem_append_right _ (List.mem_singleton_self _)⟩
    · rw [List.map_append, List.nodup_append]
      refine ⟨h3, by simp, ?_⟩
      intro a ha hb
      simp only [List.map_cons, List.map_nil, List.mem_singleton] at hb
      rcases List.mem_map.mp ha with ⟨p, hp, hpa⟩
      exact hnotin p hp (hpa.symm ▸ hb ▸ rfl)

theorem count_types_go_invariant (keys processed : List String)
    (counts : List (String × Nat))
    (h1 : ∀ q ∈ counts, q.2 = processed.count q.1 ∧ q.1 ∈ processed)
    (h2 : ∀ a ∈ processed, ∃ n, (a, n) ∈ counts)
    (h3 : (counts.map Prod.fst).Nodup) :
    (∀ q ∈ keys.foldl bump counts,
        q.2 = (processed ++ keys).count q.1 ∧ q.1 ∈ processed ++ keys) ∧
      (∀ a ∈ processed ++ keys, ∃ n, (a, n) ∈ keys.foldl bump counts) ∧
      ((keys.foldl bump counts).map Prod.fst).Nodup := by
  induction keys generalizing processed counts with
  | nil =>
    simp only [List.foldl_nil, List.append_nil]
    exact ⟨h1, h2, h3⟩
  | cons k rest ih =>
    rw [List.foldl_cons]
    have hb := bump_invariant processed counts k h1 h2 h3
    have := ih (processed ++ [k]) (bump counts k) hb.1 hb.2.1 hb.2.2
    simpa [List.append_assoc] using this

/-- Key facts about `count_types`: every entry records the exact occurrence
count of its key, every occurring key has an entry, and keys are unique. -/
theorem count_types_spec (keys : List String) :
    (∀ q ∈ count_types keys, q.2 = keys.count q.1 ∧ q.1 ∈ keys) ∧
      (∀ a ∈ keys, ∃ n, (a, n) ∈ count_types keys) ∧
      ((count_types keys).map Prod.fst).Nodup := by
  have h := count_types_go_invariant keys [] []
    (by intro q hq; cases hq) (by intro a ha; cases ha) (by simp)
  simpa using h

/-- C8: the statistics aggregator reports the list lengths as totals; each
counted action type / sentiment label carries its exact occurrence count;
every percentage entry is `count / total * 100` when the total is positive
and the guarded `0` branch otherwise (so no division by zero is ever
evaluated); and with a zero total the percentage mapping is empty. -/
theorem get_player_statistics_spec (actionTypes sentiments : List String) :
    (get_player_statistics actionTypes sentiments).total_actions =
        actionTypes.length ∧
      (get_player_statistics actionTypes sentiments).total_messages =
        sentiments.length ∧
      (∀ q ∈ (get_player_statistics actionTypes sentiments).action_counts,
        q.2 = actionTypes.count q.1 ∧ q.1 ∈ actionTypes) ∧
      (∀ a ∈ actionTypes, ∃ n,
        (a, n) ∈ (get_player_statistics actionTypes sentiments).action_counts) ∧
      (∀ k n,
        (k, n) ∈ (get_player_statistics actionTypes sentiments).action_counts →
          ((0 < actionTypes.length →
            (k, (n : ℚ) / (actionTypes.length : ℚ) * 100) ∈
              (get_player_statistics actionTypes sentiments).action_percentages) ∧
          (actionTypes.length = 0 →
            (k, (0 : ℚ)) ∈
              (get_player_statistics actionTypes sentiments).action_percentages))) ∧
      (actionTypes = [] →
        (get_player_statistics actionTypes sentiments).action_percentages = []) ∧
      (∀ q ∈ (get_player_statistics actionTypes sentiments).sentiment_counts,
        q.2 = sentiments.count q.1 ∧ q.1 ∈ sentiments) ∧
      (∀ a ∈ sentiments, ∃ n,
        (a, n) ∈ (get_player_statistics actionTypes sentiments).sentiment_counts) ∧
      (∀ k n,
        (k, n) ∈ (get_player_statistics actionTypes sentiments).sentiment_counts →
          ((0 < sentiments.length →
            (k, (n : ℚ) / (sentiments.length : ℚ) * 100) ∈
              (get_player_statistics actionTypes sentiments).sentiment_percentages) ∧
          (sentiments.length = 0 →
            (k, (0 : ℚ)) ∈
              (get_player_statistics actionTypes sentiments).sentiment_percentages))) ∧
      (sentiments = [] →
        (get_player_statistics actionTypes sentiments).sentiment_percentages = []) := by
  have hac := count_types_spec actionTypes
  have hsc := count_types_spec sentiments
  have hstats : get_player_statistics actionTypes sentiments =
      ⟨actionTypes.length, count_types actionTypes,
        (count_types actionTypes).map (fun p =>
          (p.1, if 0 < actionTypes.length then
            (p.2 : ℚ) / (actionTypes.length : ℚ) * 100 else 0)),
        sentiments.length, count_types sentiments,
        (count_types sentiments).map (fun p =>
          (p.1, if 0 < sentiments.length then
            (p.2 : ℚ) / (sentiments.length : ℚ) * 100 else 0))⟩ := rfl
  rw [hstats]
  refine ⟨rfl, rfl, hac.1, hac.2.1, ?_, ?_, hsc.1, hsc.2.1, ?_, ?_⟩
  · intro k n hkn
    constructor
    · intro hpos
      exact List.mem_map.mpr ⟨(k, n), hkn, by simp [hpos]⟩
    · intro hzero
      refine List.mem_map.mpr ⟨(k, n), hkn, ?_⟩
      rw [if_neg (by omega)]
  · intro hnil
    subst hnil
    rfl
  · intro k n hkn
    constructor
    · intro hpos
      exact List.mem_map.mpr ⟨(k, n), hkn, by simp [hpos]⟩
    · intro hzero
      refine List.mem_map.mpr ⟨(k, n), hkn, ?_⟩
      rw [if_neg (by omega)]
  · intro hnil
    subst hnil
    rfl

/-- Witness for `get_player_statistics_spec`: with actions
`["raise", "fold", "raise"]`, the entry for `"raise"` has count 2 and
percentage `2 / 3 * 100`. -/
theorem get_player_statistics_spec_witness :
    ("raise", 2) ∈
        (get_player_statistics ["raise", "fold", "raise"]
          ["confident"]).action_counts ∧
      ("raise", ((2 : ℕ) : ℚ) /
          ((["raise", "fold", "raise"] : List String).length : ℚ) * 100) ∈
        (get_player_statistics ["raise", "fold", "raise"]
          ["confident"]).action_percentages :=
  ⟨by decide,
    ((get_player_statistics_spec ["raise", "fold", "raise"]
      ["confident"]).2.2.2.2.1 "raise" 2 (by decide)).1 (by decide)⟩

/-! ### Sentiment labeling (`_analyze_sentiment` in `game_data_extractor.py`) -/

theorem kwCount_eq_zero (m : String) (kws : List String) :
    kwCount m kws = 0 ↔ ∀ w ∈ kws, strContainsSub m w = false := by
  rw [kwCount, List.length_eq_zero, List.filter_eq_nil_iff]
  simp [Bool.not_eq_true]

/-- C10: the sentiment labeler always returns one of the five labels;
it returns `"neutral"` exactly when the lowercased message contains no
keyword from any of the four lists; and a non-neutral label is the first
category in the fixed order `confident, aggressive, cautious, friendly`
attaining the maximal keyword count (earlier categories win ties). -/
theorem analyze_sentiment_spec (message : String) :
    (analyze_sentiment message = "confident" ∨
        analyze_sentiment message = "aggressive" ∨
        analyze_sentiment message = "cautious" ∨
        analyze_sentiment message = "friendly" ∨
        analyze_sentiment message = "neutral") ∧
      (analyze_sentiment message = "neutral" ↔
        ∀ w ∈ confident_keywords ++ aggressive_keywords ++
            cautious_keywords ++ friendly_keywords,
          strContainsSub (strToLower message) w = false) ∧
      (analyze_sentiment message ≠ "neutral" →
        ((analyze_sentiment message = "confident" ↔
            kwCount (strToLower message) aggressive_keywords ≤
                kwCount (strToLower message) confident_keywords ∧
              kwCount (strToLower message) cautious_keywords ≤
                kwCount (strToLower message) confident_keywords ∧
              kwCount (strToLower message) friendly_keywords ≤
                kwCount (strToLower message) confident_keywords) ∧
          (analyze_sentiment message = "aggressive" ↔
            kwCount (strToLower message) confident_keywords <
                kwCount (strToLower message) aggressive_keywords ∧
              kwCount (strToLower message) cautious_keywords ≤
                kwCount (strToLower message) aggressive_keywords ∧
              kwCount (strToLower message) friendly_keywords ≤
                kwCount (strToLower message) aggressive_keywords) ∧
          (analyze_sentiment message = "cautious" ↔
            kwCount (strToLower message) confident_keywords <
                kwCount (strToLower message) cautious_keywords ∧
              kwCount (strToLower message) aggressive_keywords <
                kwCount (strToLower message) cautious_keywords ∧
              kwCount (strToLower message) friendly_keywords ≤
                kwCount (strToLower message) cautious_keywords) ∧
          (analyze_sentiment message = "friendly" ↔
            kwCount (strToLower message) confident_keywords <
                kwCount (strToLower message) friendly_keywords ∧
              kwCount (strToLower message) aggressive_keywords <
                kwCount (strToLower message) friendly_keywords ∧
              kwCount (strToLower message) cautious_keywords <
                kwCount (strToLower message) friendly_keywords))) := by
  have hbig : (∀ w ∈ confident_keywords ++ aggressive_keywords ++
      cautious_keywords ++ friendly_keywords,
        strContainsSub (strToLower message) w = false) ↔
      (kwCount (strToLower message) confident_keywords = 0 ∧
        kwCount (strToLower message) aggressive_keywords = 0 ∧
        kwCount (strToLower message) cautious_keywords = 0 ∧
        kwCount (strToLower message) friendly_keywords = 0) := by
    simp only [List.forall_mem_append]
    rw [← kwCount_eq_zero, ← kwCount_eq_zero, ← kwCount_eq_zero,
      ← kwCount_eq_zero]
    tauto
  rw [hbig]
  simp only [analyze_sentiment, firstMaxKey, List.foldl_cons, List.foldl_nil]
  set a := kwCount (strToLower message) confident_keywords with ha
  set b := kwCount (strToLower message) aggressive_keywords with hb
  set c := kwCount (strToLower message) cautious_keywords with hc
  set d := kwCount (strToLower message) friendly_keywords with hd
  split_ifs <;>
    refine ⟨by simp, by simp; omega, ?_⟩ <;>
    intro hne <;>
    first
      | (exact absurd rfl hne)
      | (refine ⟨?_, ?_, ?_, ?_⟩ <;> simp <;> omega)

/-- Witness for `analyze_sentiment_spec` at the message `"bet"`: the label
is non-neutral and the tie-break characterization applies concretely. -/
theorem analyze_sentiment_spec_witness :
    analyze_sentiment "bet" ≠ "neutral" ∧
      (analyze_sentiment "bet" = "aggressive" ↔
        kwCount (strToLower "bet") confident_keywords <
            kwCount (strToLower "bet") aggressive_keywords ∧
          kwCount (strToLower "bet") cautious_keywords ≤
            kwCount (strToLower "bet") aggressive_keywords ∧
          kwCount (strToLower "bet") friendly_keywords ≤
            kwCount (strToLower "bet") aggressive_keywords) :=
  ⟨by decide, ((analyze_sentiment_spec "bet").2.2 (by decide)).2.1⟩

end PokerPoke
